import Mathlib

/-!
# Encryption transforms of bedrock-protocol (`src/transforms/encryption.js`)

A shallow embedding of the encode / decode pipelines built by `createEncryptor`
and `createDecryptor`, together with `computeCheckSum`.

A Node `Buffer` is a list of bytes.  Library primitives that the file calls but does
not define (SHA-256, the AES block function, raw deflate / inflate, the capability
test `crypto.getCiphers().includes(CIPHER)`) are fields of a `Runtime` record.
The library behaviour the file relies on is written out:
`Buffer.slice`, `Buffer.writeBigInt64LE`, `Buffer.toString("hex")`, the CFB-8
mode of operation, and `Readable.push` of a stream that is not in object mode.

A pipe chain `a.pipe(b).pipe(c).on('data', f)` is a composition of functions: a chunk
written to `a` goes through the transform of `a`, what the transform pushes is written
to `b`, and so on up to the listener `f`.  Chunks are neither split nor merged, and
writes are served in order, so that one call of the function returned by
`createEncryptor` or `createDecryptor` is followed to the end of its chain before the
next call is looked at.
-/

namespace Encryption

/-- One octet of a Node `Buffer`. -/
abbrev Byte := Fin 256

/-- A Node `Buffer`. -/
abbrev Buffer := List Byte

/-- Errors that the file or the library calls it makes can raise. -/
inductive StreamError where
  /-- `createCipheriv` / `aesjs` reject the key size. -/
  | invalidKeyLength
  /-- `createCipheriv` / `aesjs` reject the initialisation vector size. -/
  | invalidIvLength
  /-- A counter that is not a bigint reached `writeBigInt64LE`, or a handle is not set. -/
  | typeError
  /-- `ERR_OUT_OF_RANGE` raised by `writeBigInt64LE`. -/
  | outOfRange
  /-- The error thrown at line 95, `Failed to deflate stream`. -/
  | deflateFailed
  /-- The error rethrown at line 140 by the inflator. -/
  | inflateFailed
  /-- The error thrown at line 131; it carries both hex strings. -/
  | checksumMismatch (received computed : List Char)
  deriving DecidableEq

/-- Library primitives used by the file. -/
structure Runtime where
  /-- Outcome of `crypto.getCiphers().includes(CIPHER)`. -/
  hasNativeCipher : Bool
  /-- The AES block function: key, 16-byte block, encrypted block. -/
  aesEncryptBlock : Buffer → Buffer → Buffer
  /-- Digest of `crypto.createHash('sha256')` over the bytes fed by `update`. -/
  sha256 : Buffer → Buffer
  /-- Outcome of `Zlib.deflateRaw(chunk, { level: 7 }, cb)`: `none` when `err` is set. -/
  deflateRaw : Buffer → Option Buffer
  /-- Outcome of `Zlib.inflateRaw(chunk, ..., cb)`: `none` when `err` is set. -/
  inflateRaw : Buffer → Option Buffer

/-! ## Buffer library -/

/-- Library function: the index normalisation of `Buffer.prototype.slice`.  A negative
offset counts from the end, and every offset is clamped to `[0, length]`. -/
def adjustOffset (offset : Int) (length : Nat) : Nat :=
  if offset < 0 then
    if 0 < offset + (length : Int) then (offset + (length : Int)).toNat else 0
  else if offset < (length : Int) then offset.toNat
  else length

/-- Library function `buf.slice(start, end)`; `stop = none` stands for an omitted `end`.
The result has `end - start` bytes when `end > start`, and none otherwise. -/
def slice (buf : Buffer) (start : Int) (stop : Option Int) : Buffer :=
  let s := adjustOffset start buf.length
  let e := match stop with
    | some e => adjustOffset e buf.length
    | none => buf.length
  (buf.drop s).take (e - s)

/-- Store of a number into one `Uint8Array` cell: the value modulo 256. -/
def toByte (n : Nat) : Byte := ⟨n % 256, Nat.mod_lt _ (by decide)⟩

/-- Library function `Buffer.alloc(8).writeBigInt64LE(value, 0)`: the value must lie in
the signed 64-bit range `-(2n ** 63n) <= value < 2n ** 63n`, else `ERR_OUT_OF_RANGE` is
thrown; it is stored as `value & 0xffffffffn` and `value >> 32n & 0xffffffffn`, each
word least significant byte first. -/
def writeBigInt64LE (value : Int) : Except StreamError Buffer :=
  if value < -(2 ^ 63) ∨ 2 ^ 63 - 1 < value then .error .outOfRange
  else
    let lo := (value % 2 ^ 32).toNat
    let hi := ((value / 2 ^ 32) % 2 ^ 32).toNat
    .ok [toByte lo, toByte (lo / 2 ^ 8), toByte (lo / 2 ^ 16), toByte (lo / 2 ^ 24),
         toByte hi, toByte (hi / 2 ^ 8), toByte (hi / 2 ^ 16), toByte (hi / 2 ^ 24)]

/-- One hexadecimal digit, lower case. -/
def hexDigit (n : Nat) : Char := Nat.digitChar n

/-- Library function `buf.toString("hex")`: two digits per byte. -/
def toHex : Buffer → List Char
  | [] => []
  | b :: bs => hexDigit (b.val / 16) :: hexDigit (b.val % 16) :: toHex bs

/-- Bitwise exclusive or of two bytes. -/
def xorByte (a b : Byte) : Byte :=
  ⟨a.val ^^^ b.val, Nat.xor_lt_two_pow (n := 8) a.isLt b.isLt⟩

/-! ## Stream cipher (lines 6-52) -/

/-- Running state of an `aes-256-cfb8` cipher or decipher: the key and the 16-byte
shift register. -/
structure CipherHandle where
  key : Buffer
  register : Buffer
  deriving DecidableEq

/-- Key and IV checks made by the constructors: the native `createCipheriv` wants a
32-byte key, the `aesjs` fallback takes 16, 24 or 32 bytes; both want a 16-byte IV, and
both look at the IV first. -/
def newHandle (rt : Runtime) (secret initialValue : Buffer) : Except StreamError CipherHandle :=
  if rt.hasNativeCipher then
    if initialValue.length ≠ 16 then .error .invalidIvLength
    else if secret.length ≠ 32 then .error .invalidKeyLength
    else .ok ⟨secret, initialValue⟩
  else
    if initialValue.length ≠ 16 then .error .invalidIvLength
    else if secret.length ≠ 16 ∧ secret.length ≠ 24 ∧ secret.length ≠ 32 then
      .error .invalidKeyLength
    else .ok ⟨secret, initialValue⟩

/-- Source `createCipher(secret, initialValue)`. -/
def createCipher (rt : Runtime) (secret initialValue : Buffer) : Except StreamError CipherHandle :=
  newHandle rt secret initialValue

/-- Source `createDecipher(secret, initialValue)`. -/
def createDecipher (rt : Runtime) (secret initialValue : Buffer) :
    Except StreamError CipherHandle :=
  newHandle rt secret initialValue

/-- The transform of `Cipher` (lines 28-35, `this.aes.encrypt(chunk)` with segment size 1)
and of the native `aes-256-cfb8` cipher: CFB-8 encryption of a chunk.  Each byte is
xored with the first byte of the encrypted shift register, and the ciphertext byte is
shifted into the register. -/
def cipherUpdate (rt : Runtime) (h : CipherHandle) : Buffer → Buffer × CipherHandle
  | [] => ([], h)
  | p :: ps =>
    let c := xorByte p ((rt.aesEncryptBlock h.key h.register).headD 0)
    let r := cipherUpdate rt ⟨h.key, h.register.drop 1 ++ [c]⟩ ps
    (c :: r.1, r.2)

/-- The transform of `Decipher` (lines 44-51, `this.aes.decrypt(chunk)`) and of the native
decipher: CFB-8 decryption of a chunk, with the same key stream; again the ciphertext
byte is shifted into the register. -/
def decipherUpdate (rt : Runtime) (h : CipherHandle) : Buffer → Buffer × CipherHandle
  | [] => ([], h)
  | c :: cs =>
    let p := xorByte c ((rt.aesEncryptBlock h.key h.register).headD 0)
    let r := decipherUpdate rt ⟨h.key, h.register.drop 1 ++ [c]⟩ cs
    (p :: r.1, r.2)

/-! ## Checksum (lines 54-66) -/

/-- Source `computeCheckSum(packetPlaintext, sendCounter, secretKeyBytes)`. -/
def computeCheckSum (rt : Runtime) (packetPlaintext : Buffer) (sendCounter : Int)
    (secretKeyBytes : Buffer) : Except StreamError Buffer :=
  match writeBigInt64LE sendCounter with
  | .error e => .error e
  | .ok counter =>
    let hash := rt.sha256 (counter ++ packetPlaintext ++ secretKeyBytes)
    .ok (slice hash 0 (some 8))

/-! ## Connection state and streams -/

/-- The fields of the `client` object that the file reads and writes.  A counter or a
handle that has not been assigned yet (`undefined`) is `none`; counters are bigints. -/
structure Client where
  secretKeyBytes : Buffer
  sendCounter : Option Int
  receiveCounter : Option Int
  cipher : Option CipherHandle
  decipher : Option CipherHandle
  deriving DecidableEq

/-- The expression `counter || 0n`: `undefined` and `0n` are falsy, every other
bigint is kept. -/
def orZero : Option Int → Int
  | none => 0
  | some n => if n = 0 then 0 else n

/-- Library function `Readable.prototype.push` of a `Transform` or `PassThrough` that is
not in object mode, as every stream of the file is: the chunk is queued for the next
stage when `chunk.length > 0`; a zero-length chunk adds nothing to the readable side,
so that no `data` event follows (`none`). -/
def readablePush (chunk : Buffer) : Option Buffer :=
  if 0 < chunk.length then some chunk else none

/-- State of the connection once one call has run through its pipeline: the chunks
handed to the `data` listener, and the error thrown by a stage.  A stage that throws
never invokes its transform callback, so the pipeline serves no further chunk. -/
structure Run where
  client : Client
  data : List Buffer
  thrown : Option StreamError
  deriving DecidableEq

/-! ## Encoder (lines 68-113) -/

/-- Source `createEncryptor(client, iv)`, lines 69-70: the state it leaves on `client`. -/
def createEncryptor (rt : Runtime) (client : Client) (iv : Buffer) : Except StreamError Client :=
  match createCipher rt client.secretKeyBytes iv with
  | .error e => .error e
  | .ok h => .ok { client with cipher := some h, sendCounter := some (orZero client.sendCounter) }

/-- The `addChecksum` transform, lines 75-84: the updated client and the pushed packet. -/
def addChecksum (rt : Runtime) (client : Client) (chunk : Buffer) :
    Client × Except StreamError Buffer :=
  match client.sendCounter with
  | none => (client, .error .typeError)
  | some sendCounter =>
    match computeCheckSum rt chunk sendCounter client.secretKeyBytes with
    | .error e => (client, .error e)
    | .ok sum =>
      let packet := chunk ++ sum
      ({ client with sendCounter := some (sendCounter + 1) }, .ok packet)

/-- A chunk written to `client.cipher`, line 108: the cipher transform, then the
`data` listener `client.onEncryptedPacket`. -/
def cipherWrite (rt : Runtime) (client : Client) (chunk : Buffer) : Run :=
  match client.cipher with
  | none => ⟨client, [], some .typeError⟩
  | some h =>
    let out := cipherUpdate rt h chunk
    let client2 := { client with cipher := some out.2 }
    match readablePush out.1 with
    | none => ⟨client2, [], none⟩
    | some wire => ⟨client2, [wire], none⟩

/-- A chunk written to `addChecksum`, which is piped into `client.cipher`. -/
def addChecksumWrite (rt : Runtime) (client : Client) (chunk : Buffer) : Run :=
  match addChecksum rt client chunk with
  | (client1, .error e) => ⟨client1, [], some e⟩
  | (client1, .ok packet) =>
    match readablePush packet with
    | none => ⟨client1, [], none⟩
    | some plain => cipherWrite rt client1 plain

/-- A chunk written to `compressor`, lines 90-101, which is piped into `addChecksum`. -/
def compressorWrite (rt : Runtime) (client : Client) (chunk : Buffer) : Run :=
  match rt.deflateRaw chunk with
  | none => ⟨client, [], some .deflateFailed⟩
  | some res =>
    match readablePush res with
    | none => ⟨client, [], none⟩
    | some compressed => addChecksumWrite rt client compressed

/-- The function returned by `createEncryptor`, lines 104-112: `stream.write(blob)` on
the `PassThrough`, which is piped into `compressor`.  This is one call as a chain
serves it when none of its stages has thrown before; `runAll` puts calls in sequence. -/
def encode (rt : Runtime) (client : Client) (blob : Buffer) : Run :=
  match readablePush blob with
  | none => ⟨client, [], none⟩
  | some chunk => compressorWrite rt client chunk

/-! ## Decoder (lines 116-157) -/

/-- Source `createDecryptor(client, iv)`, lines 117-118: the state it leaves on `client`. -/
def createDecryptor (rt : Runtime) (client : Client) (iv : Buffer) : Except StreamError Client :=
  match createDecipher rt client.secretKeyBytes iv with
  | .error e => .error e
  | .ok h =>
    .ok { client with decipher := some h, receiveCounter := some (orZero client.receiveCounter) }

/-- The `verifyChecksum` transform, lines 120-135: the updated client and the pushed
packet, or the error thrown. -/
def verifyChecksum (rt : Runtime) (client : Client) (chunk : Buffer) :
    Client × Except StreamError Buffer :=
  let packet := slice chunk 0 (some ((chunk.length : Int) - 8))
  let checksum := slice chunk ((chunk.length : Int) - 8) none
  match client.receiveCounter with
  | none => (client, .error .typeError)
  | some receiveCounter =>
    match computeCheckSum rt packet receiveCounter client.secretKeyBytes with
    | .error e => (client, .error e)
    | .ok computedCheckSum =>
      let client1 := { client with receiveCounter := some (receiveCounter + 1) }
      if toHex checksum = toHex computedCheckSum then (client1, .ok packet)
      else (client1, .error (.checksumMismatch (toHex checksum) (toHex computedCheckSum)))

/-- A chunk written to `inflator`, lines 137-145, then the `data` listener of line 150,
`client.onDecryptedPacket`. -/
def inflatorWrite (rt : Runtime) (client : Client) (chunk : Buffer) : Run :=
  match rt.inflateRaw chunk with
  | none => ⟨client, [], some .inflateFailed⟩
  | some buf =>
    match readablePush buf with
    | none => ⟨client, [], none⟩
    | some payload => ⟨client, [payload], none⟩

/-- A chunk written to `verifyChecksum`, which is piped into `inflator`. -/
def verifyChecksumWrite (rt : Runtime) (client : Client) (chunk : Buffer) : Run :=
  match verifyChecksum rt client chunk with
  | (client2, .error e) => ⟨client2, [], some e⟩
  | (client2, .ok packet) =>
    match readablePush packet with
    | none => ⟨client2, [], none⟩
    | some compressed => inflatorWrite rt client2 compressed

/-- The function returned by `createDecryptor`, lines 147-156: `client.decipher.write(blob)`,
the decipher being piped into `verifyChecksum`.  This is one call as a chain serves it
when none of its stages has thrown before: a write to a chain in which `verifyChecksum`
has thrown is queued by the decipher and never served.  `runAll` puts calls in
sequence and stops serving at the first error. -/
def decode (rt : Runtime) (client : Client) (blob : Buffer) : Run :=
  match client.decipher with
  | none => ⟨client, [], some .typeError⟩
  | some h =>
    let out := decipherUpdate rt h blob
    let client1 := { client with decipher := some out.2 }
    match readablePush out.1 with
    | none => ⟨client1, [], none⟩
    | some chunk => verifyChecksumWrite rt client1 chunk

/-- Calls made one after the other on one pipeline, from its creation, followed up to the
first call in which a stage throws; the record is the state at that error.  An error
thrown while the first stream of the chain is writing (the errors of `verifyChecksum`,
which runs inside the decipher's write) leaves that stream with its write pending for
ever: the calls after it are queued and never served, so that the state stays as
recorded.  An error thrown inside a zlib callback (`compressor`, `inflator`) is an
uncaught exception; the calls after it are not followed. -/
def runAll (step : Client → Buffer → Run) : Client → List Buffer → Run
  | client, [] => ⟨client, [], none⟩
  | client, blob :: blobs =>
    let r := step client blob
    match r.thrown with
    | some e => ⟨r.client, r.data, some e⟩
    | none =>
      let rest := runAll step r.client blobs
      ⟨rest.client, r.data ++ rest.data, rest.thrown⟩

/-- Successive calls of the function returned by `createEncryptor`. -/
def encodeAll (rt : Runtime) (client : Client) (blobs : List Buffer) : Run :=
  runAll (encode rt) client blobs

/-- Successive calls of the function returned by `createDecryptor`. -/
def decodeAll (rt : Runtime) (client : Client) (blobs : List Buffer) : Run :=
  runAll (decode rt) client blobs

/-! ## Reference definitions from the specification -/

/-- `LE64(counter)`: the 8-byte little-endian encoding of an unsigned counter. -/
def LE64 (counter : Nat) : Buffer :=
  (List.range 8).map (fun i => toByte (counter / 256 ^ i))

/-! ## A small runtime for closed examples -/

/-- A runtime with toy primitives: a constant 32-byte digest, the identity block
function, and a compressor that prefixes one zero byte. -/
def demoRuntime : Runtime where
  hasNativeCipher := true
  aesEncryptBlock := fun _ block => block
  sha256 := fun _ => List.replicate 32 7
  deflateRaw := fun b => some (0 :: b)
  inflateRaw := fun b => match b with
    | [] => none
    | _ :: rest => some rest

/-- A 32-byte key. -/
def demoKey : Buffer := List.replicate 32 1

/-- A 16-byte initialisation vector. -/
def demoIv : Buffer := List.replicate 16 2

/-- A client object holding only its key, as `testDecrypt` builds it. -/
def freshClient (key : Buffer) : Client := ⟨key, none, none, none, none⟩

/-- State of `freshClient demoKey` once `createEncryptor` has run with `demoIv`. -/
def demoEncoder : Client := ⟨demoKey, some 0, none, some ⟨demoKey, demoIv⟩, none⟩

/-- State of `freshClient demoKey` once `createDecryptor` has run with `demoIv`. -/
def demoDecoder : Client := ⟨demoKey, none, some 0, none, some ⟨demoKey, demoIv⟩⟩

/-! ## Library facts -/

theorem xorByte_xorByte (a k : Byte) : xorByte (xorByte a k) k = a := by
  apply Fin.ext
  simp [xorByte, Nat.xor_assoc]

theorem decipherUpdate_cipherUpdate (rt : Runtime) (h : CipherHandle) (plain : Buffer) :
    decipherUpdate rt h (cipherUpdate rt h plain).1 = (plain, (cipherUpdate rt h plain).2) := by
  induction plain generalizing h with
  | nil => rfl
  | cons p ps ih =>
    simp only [cipherUpdate, decipherUpdate, xorByte_xorByte, ih]

theorem length_cipherUpdate (rt : Runtime) (h : CipherHandle) (plain : Buffer) :
    (cipherUpdate rt h plain).1.length = plain.length := by
  induction plain generalizing h with
  | nil => rfl
  | cons p ps ih => simp [cipherUpdate, ih]

theorem length_decipherUpdate (rt : Runtime) (h : CipherHandle) (wire : Buffer) :
    (decipherUpdate rt h wire).1.length = wire.length := by
  induction wire generalizing h with
  | nil => rfl
  | cons p ps ih => simp [decipherUpdate, ih]

theorem hexDigit_inj : ∀ a b : Fin 16, hexDigit a.val = hexDigit b.val → a = b := by
  decide

theorem toHex_inj : ∀ a b : Buffer, toHex a = toHex b → a = b
  | [], [] , _ => rfl
  | [], _ :: _, h => by simp [toHex] at h
  | _ :: _, [], h => by simp [toHex] at h
  | x :: xs, y :: ys, h => by
    simp only [toHex, List.cons.injEq] at h
    obtain ⟨h1, h2, h3⟩ := h
    have e1 := hexDigit_inj ⟨x.val / 16, by omega⟩ ⟨y.val / 16, by omega⟩ h1
    have e2 := hexDigit_inj ⟨x.val % 16, by omega⟩ ⟨y.val % 16, by omega⟩ h2
    have e3 := toHex_inj xs ys h3
    simp only [Fin.mk.injEq] at e1 e2
    have : x = y := by apply Fin.ext; omega
    rw [this, e3]


theorem adjustOffset_zero (n : Nat) : adjustOffset 0 n = 0 := by
  unfold adjustOffset
  split_ifs <;> omega

theorem adjustOffset_eight (n : Nat) : adjustOffset 8 n = min 8 n := by
  unfold adjustOffset
  split_ifs <;> omega

theorem adjustOffset_sub_eight (n : Nat) :
    adjustOffset ((n : Int) - 8) n = if 8 ≤ n then n - 8 else 2 * n - 8 := by
  unfold adjustOffset
  split_ifs <;> omega

theorem slice_zero_eight (b : Buffer) : slice b 0 (some 8) = b.take 8 := by
  simp only [slice, adjustOffset_zero, adjustOffset_eight, List.drop_zero, Nat.sub_zero]
  by_cases h : 8 ≤ b.length
  · rw [Nat.min_eq_left h]
  · have h1 : b.length ≤ 8 := by omega
    rw [Nat.min_eq_right h1, List.take_of_length_le h1, List.take_of_length_le (le_refl _)]

theorem writeBigInt64LE_eq_LE64 (c : Int) (h0 : 0 ≤ c) (h1 : c < 2 ^ 63) :
    writeBigInt64LE c = .ok (LE64 c.toNat) := by
  obtain ⟨n, rfl⟩ := Int.eq_ofNat_of_zero_le h0
  have hn : n < 2 ^ 63 := by exact_mod_cast h1
  have hc : ¬ ((n : Int) < -(2 ^ 63) ∨ (2 : Int) ^ 63 - 1 < (n : Int)) := by omega
  simp only [writeBigInt64LE, if_neg hc, LE64, Int.toNat_ofNat]
  have e1 : ((n : Int) % 2 ^ 32).toNat = n % 2 ^ 32 := by omega
  have e2 : (((n : Int) / 2 ^ 32) % 2 ^ 32).toNat = n / 2 ^ 32 % 2 ^ 32 := by omega
  rw [e1, e2]
  simp only [List.range, List.range.loop, List.map, toByte]
  simp only [Except.ok.injEq, List.cons.injEq, Fin.mk.injEq, and_true]
  refine ⟨?_, ?_, ?_, ?_, ?_, ?_, ?_, ?_⟩ <;> omega

theorem slice_packet (chunk : Buffer) :
    slice chunk 0 (some ((chunk.length : Int) - 8))
      = chunk.take (if 8 ≤ chunk.length then chunk.length - 8 else 2 * chunk.length - 8) := by
  simp only [slice, adjustOffset_zero, adjustOffset_sub_eight, List.drop_zero, Nat.sub_zero]

theorem slice_checksum (chunk : Buffer) :
    slice chunk ((chunk.length : Int) - 8) none
      = chunk.drop (if 8 ≤ chunk.length then chunk.length - 8 else 2 * chunk.length - 8) := by
  simp only [slice, adjustOffset_sub_eight]
  apply List.take_of_length_le
  simp

theorem slice_packet_append (z tag : Buffer) (h : tag.length = 8) :
    slice (z ++ tag) 0 (some (((z ++ tag).length : Int) - 8)) = z := by
  rw [slice_packet]
  have h8 : 8 ≤ (z ++ tag).length := by simp [h]
  rw [if_pos h8]
  have : (z ++ tag).length - 8 = z.length := by simp [h]
  rw [this, List.take_left']
  rfl

theorem slice_checksum_append (z tag : Buffer) (h : tag.length = 8) :
    slice (z ++ tag) (((z ++ tag).length : Int) - 8) none = tag := by
  rw [slice_checksum]
  have h8 : 8 ≤ (z ++ tag).length := by simp [h]
  rw [if_pos h8]
  have : (z ++ tag).length - 8 = z.length := by simp [h]
  rw [this, List.drop_left']
  rfl

theorem computeCheckSum_ok (rt : Runtime) (p k : Buffer) (c : Int)
    (h0 : -(2 ^ 63) ≤ c) (h1 : c < 2 ^ 63) :
    ∃ counter, writeBigInt64LE c = .ok counter ∧
      computeCheckSum rt p c k = .ok ((rt.sha256 (counter ++ p ++ k)).take 8) := by
  have hc : ¬ (c < -(2 ^ 63) ∨ (2 : Int) ^ 63 - 1 < c) := by omega
  refine ⟨_, if_neg hc, ?_⟩
  simp only [computeCheckSum, writeBigInt64LE, if_neg hc, slice_zero_eight]

theorem computeCheckSum_length (rt : Runtime) (hsha : ∀ m, (rt.sha256 m).length = 32)
    (p k tag : Buffer) (c : Int) (h : computeCheckSum rt p c k = .ok tag) : tag.length = 8 := by
  unfold computeCheckSum at h
  split at h
  · cases h
  · simp only [Except.ok.injEq] at h
    rw [← h, slice_zero_eight, List.length_take, hsha]
    rfl

theorem computeCheckSum_outOfRange (rt : Runtime) (p k : Buffer) (c : Int) (h : 2 ^ 63 ≤ c) :
    computeCheckSum rt p c k = .error .outOfRange := by
  have hc : (c < -(2 ^ 63) ∨ (2 : Int) ^ 63 - 1 < c) := by omega
  simp only [computeCheckSum, writeBigInt64LE, if_pos hc]

theorem encode_eq (rt : Runtime) (client : Client) (blob z tag : Buffer) (c : Int)
    (h : CipherHandle) (hb : blob ≠ []) (hz : rt.deflateRaw blob = some z) (hz0 : z ≠ [])
    (hc : client.sendCounter = some c) (hh : client.cipher = some h)
    (ht : computeCheckSum rt z c client.secretKeyBytes = .ok tag) :
    encode rt client blob =
      ⟨{ client with sendCounter := some (c + 1),
                     cipher := some (cipherUpdate rt h (z ++ tag)).2 },
       [(cipherUpdate rt h (z ++ tag)).1], none⟩ := by
  have hb1 : 0 < blob.length := List.length_pos.mpr hb
  have hz1 : 0 < z.length := List.length_pos.mpr hz0
  have hp : 0 < (z ++ tag).length := by simp; omega
  have hw : 0 < (cipherUpdate rt h (z ++ tag)).1.length := by rw [length_cipherUpdate]; exact hp
  simp only [encode, compressorWrite, addChecksumWrite, cipherWrite, readablePush, hb1, if_true, hz, hz1, addChecksum, hc, ht, hp, hh, hw]

/-! ## Facts about one call -/

theorem decode_eq (rt : Runtime) (hsha : ∀ m, (rt.sha256 m).length = 32)
    (client : Client) (z tag payload : Buffer) (c : Int)
    (h : CipherHandle) (hz0 : z ≠ []) (hz : rt.inflateRaw z = some payload)
    (hp0 : payload ≠ [])
    (hc : client.receiveCounter = some c) (hh : client.decipher = some h)
    (ht : computeCheckSum rt z c client.secretKeyBytes = .ok tag) :
    decode rt client (cipherUpdate rt h (z ++ tag)).1 =
      ⟨{ client with receiveCounter := some (c + 1),
                     decipher := some (cipherUpdate rt h (z ++ tag)).2 },
       [payload], none⟩ := by
  have ht8 : tag.length = 8 := computeCheckSum_length rt hsha _ _ _ _ ht
  have hz1 : 0 < z.length := List.length_pos.mpr hz0
  have hp1 : 0 < payload.length := List.length_pos.mpr hp0
  have hp : 0 < (z ++ tag).length := by simp; omega
  simp only [decode, verifyChecksumWrite, inflatorWrite, hh, decipherUpdate_cipherUpdate, readablePush, hp, if_true, verifyChecksum,
    hc, slice_packet_append z tag ht8, slice_checksum_append z tag ht8, ht, hz1, hz, hp1]

theorem encode_nil (rt : Runtime) (client : Client) : encode rt client [] = ⟨client, [], none⟩ := by
  simp [encode, readablePush]

theorem length_data_encode (rt : Runtime) (client : Client) (blob : Buffer) :
    (encode rt client blob).data.length ≤ 1 := by
  unfold encode compressorWrite addChecksumWrite cipherWrite
  repeat' (first | split | (dsimp only; split))
  all_goals simp

theorem length_data_decode (rt : Runtime) (client : Client) (blob : Buffer) :
    (decode rt client blob).data.length ≤ 1 := by
  unfold decode verifyChecksumWrite inflatorWrite
  repeat' (first | split | (dsimp only; split))
  all_goals simp

theorem readablePush_eq_some (chunk out : Buffer) (h : readablePush chunk = some out) :
    out = chunk ∧ chunk ≠ [] := by
  unfold readablePush at h
  split_ifs at h with h0
  cases h
  exact ⟨rfl, List.length_pos.mp h0⟩

theorem readablePush_of_ne_nil (chunk : Buffer) (h : chunk ≠ []) :
    readablePush chunk = some chunk := by
  simp [readablePush, List.length_pos.mpr h]

theorem not_nil_mem_decode (rt : Runtime) (client : Client) (blob : Buffer) :
    [] ∉ (decode rt client blob).data := by
  unfold decode verifyChecksumWrite inflatorWrite
  repeat' (first | split | (dsimp only; split))
  all_goals simp
  rename_i p hp
  intro e
  have := readablePush_eq_some _ _ hp
  rw [← e] at this
  exact this.2 this.1.symm

theorem addChecksum_frame (rt : Runtime) (client c1 : Client) (chunk : Buffer)
    (r : Except StreamError Buffer) (h : addChecksum rt client chunk = (c1, r)) :
    c1.secretKeyBytes = client.secretKeyBytes ∧ c1.receiveCounter = client.receiveCounter ∧
      c1.cipher = client.cipher ∧ c1.decipher = client.decipher := by
  unfold addChecksum at h
  repeat' split at h
  all_goals
    simp only [Prod.mk.injEq] at h
    obtain ⟨h1, -⟩ := h
    subst h1
    simp

theorem addChecksum_ok (rt : Runtime) (client c1 : Client) (chunk packet : Buffer)
    (h : addChecksum rt client chunk = (c1, .ok packet)) :
    ∃ n, client.sendCounter = some n ∧ c1.sendCounter = some (n + 1) := by
  unfold addChecksum at h
  repeat' split at h
  all_goals simp only [Prod.mk.injEq] at h
  · exact absurd h.2 (by simp)
  · exact absurd h.2 (by simp)
  · rename_i n hn _ _ _
    obtain ⟨h1, -⟩ := h
    subst h1
    exact ⟨n, hn, rfl⟩

theorem verifyChecksum_frame (rt : Runtime) (client c1 : Client) (chunk : Buffer)
    (r : Except StreamError Buffer) (h : verifyChecksum rt client chunk = (c1, r)) :
    c1.secretKeyBytes = client.secretKeyBytes ∧ c1.sendCounter = client.sendCounter ∧
      c1.cipher = client.cipher ∧ c1.decipher = client.decipher := by
  unfold verifyChecksum at h
  repeat' (first | split at h | (dsimp only at h; split at h))
  all_goals
    simp only [Prod.mk.injEq] at h
    obtain ⟨h1, -⟩ := h
    subst h1
    simp

theorem verifyChecksum_ok (rt : Runtime) (client c1 : Client) (chunk packet : Buffer)
    (h : verifyChecksum rt client chunk = (c1, .ok packet)) :
    ∃ n, client.receiveCounter = some n ∧ c1.receiveCounter = some (n + 1) := by
  unfold verifyChecksum at h
  repeat' (first | split at h | (dsimp only at h; split at h))
  all_goals simp only [Prod.mk.injEq] at h
  · exact absurd h.2 (by simp)
  · exact absurd h.2 (by simp)
  · rename_i n hn _ _ _ _
    obtain ⟨h1, -⟩ := h
    subst h1
    exact ⟨n, hn, rfl⟩
  · exact absurd h.2 (by simp)

theorem verifyChecksum_counter (rt : Runtime) (client : Client) (chunk : Buffer) (r : Int)
    (hr : client.receiveCounter = some r) (h0 : -(2 ^ 63) ≤ r) (h1 : r < 2 ^ 63) :
    (verifyChecksum rt client chunk).1.receiveCounter = some (r + 1) := by
  obtain ⟨counter, -, hc⟩ := computeCheckSum_ok rt
    (slice chunk 0 (some ((chunk.length : Int) - 8))) client.secretKeyBytes r h0 h1
  simp only [verifyChecksum, hr, hc]
  split <;> rfl

theorem encode_frame (rt : Runtime) (client : Client) (blob : Buffer) :
    (encode rt client blob).client.secretKeyBytes = client.secretKeyBytes ∧
      (encode rt client blob).client.receiveCounter = client.receiveCounter ∧
      (encode rt client blob).client.decipher = client.decipher := by
  unfold encode compressorWrite addChecksumWrite cipherWrite
  cases readablePush blob with
  | none => exact ⟨rfl, rfl, rfl⟩
  | some chunk =>
  try dsimp only
  cases rt.deflateRaw chunk with
  | none => exact ⟨rfl, rfl, rfl⟩
  | some res =>
  try dsimp only
  cases readablePush res with
  | none => exact ⟨rfl, rfl, rfl⟩
  | some compressed =>
  try dsimp only
  rcases hadd : addChecksum rt client compressed with ⟨c1, r⟩
  have hf := addChecksum_frame rt client c1 compressed r hadd
  cases r with
  | error e => exact ⟨hf.1, hf.2.1, hf.2.2.2⟩
  | ok packet =>
  try dsimp only
  cases readablePush packet with
  | none => exact ⟨hf.1, hf.2.1, hf.2.2.2⟩
  | some plain =>
  try dsimp only
  cases c1.cipher with
  | none => exact ⟨hf.1, hf.2.1, hf.2.2.2⟩
  | some h =>
  try dsimp only
  cases readablePush (cipherUpdate rt h plain).1 with
  | none => exact ⟨hf.1, hf.2.1, hf.2.2.2⟩
  | some wire =>
  exact ⟨hf.1, hf.2.1, hf.2.2.2⟩

theorem decode_frame (rt : Runtime) (client : Client) (blob : Buffer) :
    (decode rt client blob).client.secretKeyBytes = client.secretKeyBytes ∧
      (decode rt client blob).client.sendCounter = client.sendCounter ∧
      (decode rt client blob).client.cipher = client.cipher := by
  unfold decode verifyChecksumWrite inflatorWrite
  cases client.decipher with
  | none => exact ⟨rfl, rfl, rfl⟩
  | some h =>
  try dsimp only
  cases readablePush (decipherUpdate rt h blob).1 with
  | none => exact ⟨rfl, rfl, rfl⟩
  | some chunk =>
  try dsimp only
  rcases hv : verifyChecksum rt { client with decipher := some (decipherUpdate rt h blob).2 }
    chunk with ⟨c2, r⟩
  have hf := verifyChecksum_frame rt _ c2 chunk r hv
  cases r with
  | error e => exact ⟨hf.1, hf.2.1, hf.2.2.1⟩
  | ok packet =>
  try dsimp only
  cases readablePush packet with
  | none => exact ⟨hf.1, hf.2.1, hf.2.2.1⟩
  | some compressed =>
  try dsimp only
  cases rt.inflateRaw compressed with
  | none => exact ⟨hf.1, hf.2.1, hf.2.2.1⟩
  | some buf =>
  try dsimp only
  cases readablePush buf with
  | none => exact ⟨hf.1, hf.2.1, hf.2.2.1⟩
  | some payload =>
  exact ⟨hf.1, hf.2.1, hf.2.2.1⟩

theorem encode_of_data (rt : Runtime) (client : Client) (blob : Buffer)
    (hd : (encode rt client blob).data ≠ []) :
    (encode rt client blob).thrown = none ∧
      ∃ n, client.sendCounter = some n ∧
        (encode rt client blob).client.sendCounter = some (n + 1) := by
  revert hd
  unfold encode compressorWrite addChecksumWrite cipherWrite
  cases readablePush blob with
  | none => exact fun hd => absurd rfl hd
  | some chunk =>
  try dsimp only
  cases rt.deflateRaw chunk with
  | none => exact fun hd => absurd rfl hd
  | some res =>
  try dsimp only
  cases readablePush res with
  | none => exact fun hd => absurd rfl hd
  | some compressed =>
  try dsimp only
  rcases hadd : addChecksum rt client compressed with ⟨c1, r⟩
  cases r with
  | error e => exact fun hd => absurd rfl hd
  | ok packet =>
  try dsimp only
  obtain ⟨n, hn, hn1⟩ := addChecksum_ok rt client c1 compressed packet hadd
  cases readablePush packet with
  | none => exact fun hd => absurd rfl hd
  | some plain =>
  try dsimp only
  cases c1.cipher with
  | none => exact fun hd => absurd rfl hd
  | some h =>
  try dsimp only
  cases readablePush (cipherUpdate rt h plain).1 with
  | none => exact fun hd => absurd rfl hd
  | some wire =>
  exact fun _ => ⟨rfl, n, hn, hn1⟩

theorem decode_of_data (rt : Runtime) (client : Client) (blob : Buffer)
    (hd : (decode rt client blob).data ≠ []) :
    (decode rt client blob).thrown = none ∧
      ∃ n, client.receiveCounter = some n ∧
        (decode rt client blob).client.receiveCounter = some (n + 1) := by
  revert hd
  unfold decode verifyChecksumWrite inflatorWrite
  cases client.decipher with
  | none => exact fun hd => absurd rfl hd
  | some h =>
  try dsimp only
  cases readablePush (decipherUpdate rt h blob).1 with
  | none => exact fun hd => absurd rfl hd
  | some chunk =>
  try dsimp only
  rcases hv : verifyChecksum rt { client with decipher := some (decipherUpdate rt h blob).2 }
    chunk with ⟨c2, r⟩
  cases r with
  | error e => exact fun hd => absurd rfl hd
  | ok packet =>
  try dsimp only
  obtain ⟨n, hn, hn1⟩ := verifyChecksum_ok rt _ c2 chunk packet hv
  cases readablePush packet with
  | none => exact fun hd => absurd rfl hd
  | some compressed =>
  try dsimp only
  cases rt.inflateRaw compressed with
  | none => exact fun hd => absurd rfl hd
  | some buf =>
  try dsimp only
  cases readablePush buf with
  | none => exact fun hd => absurd rfl hd
  | some payload =>
  exact fun _ => ⟨rfl, n, hn, hn1⟩

theorem decode_counter (rt : Runtime) (client : Client) (blob : Buffer) (h : CipherHandle)
    (r : Int) (hh : client.decipher = some h) (hr : client.receiveCounter = some r)
    (h0 : -(2 ^ 63) ≤ r) (h1 : r < 2 ^ 63) (hb : blob ≠ []) :
    (decode rt client blob).client.receiveCounter = some (r + 1) := by
  have hlen : (decipherUpdate rt h blob).1 ≠ [] := by
    intro e
    have := length_decipherUpdate rt h blob
    rw [e] at this
    exact hb (List.length_eq_zero.mp this.symm)
  unfold decode verifyChecksumWrite inflatorWrite
  rw [hh]
  dsimp only
  rw [readablePush_of_ne_nil _ hlen]
  dsimp only
  have hv := verifyChecksum_counter rt { client with decipher := some (decipherUpdate rt h blob).2 }
    (decipherUpdate rt h blob).1 r hr h0 h1
  rcases hv2 : verifyChecksum rt { client with decipher := some (decipherUpdate rt h blob).2 }
    (decipherUpdate rt h blob).1 with ⟨c2, res⟩
  rw [hv2] at hv
  cases res with
  | error e => exact hv
  | ok packet =>
  try dsimp only
  cases readablePush packet with
  | none => exact hv
  | some compressed =>
  try dsimp only
  cases rt.inflateRaw compressed with
  | none => exact hv
  | some buf =>
  try dsimp only
  cases readablePush buf with
  | none => exact hv
  | some payload =>
  exact hv

/-! ## Facts about runs of calls -/

theorem runAll_nil (step : Client → Buffer → Run) (client : Client) :
    runAll step client [] = ⟨client, [], none⟩ := rfl

theorem runAll_cons_none (step : Client → Buffer → Run) (client : Client) (b : Buffer)
    (bs : List Buffer) (h : (step client b).thrown = none) :
    runAll step client (b :: bs) =
      ⟨(runAll step (step client b).client bs).client,
       (step client b).data ++ (runAll step (step client b).client bs).data,
       (runAll step (step client b).client bs).thrown⟩ := by
  simp only [runAll, h]

theorem runAll_cons_some (step : Client → Buffer → Run) (client : Client) (b : Buffer)
    (bs : List Buffer) (e : StreamError) (h : (step client b).thrown = some e) :
    runAll step client (b :: bs) = ⟨(step client b).client, (step client b).data, some e⟩ := by
  simp only [runAll, h]

theorem length_data_runAll (step : Client → Buffer → Run)
    (h1 : ∀ c b, (step c b).data.length ≤ 1) (bs : List Buffer) (client : Client) :
    (runAll step client bs).data.length ≤ bs.length := by
  induction bs generalizing client with
  | nil => simp [runAll_nil]
  | cons b bs ih =>
    cases ht : (step client b).thrown with
    | none =>
      rw [runAll_cons_none step client b bs ht]
      have := ih (step client b).client
      have := h1 client b
      simp only [List.length_append, List.length_cons]
      omega
    | some e =>
      rw [runAll_cons_some step client b bs e ht]
      have := h1 client b
      simp only [List.length_cons]
      omega

/-- When every call produced its chunk, the run over the first `k` inputs produced
the first `k` chunks, and again one per call. -/
theorem runAll_take (step : Client → Buffer → Run)
    (h1 : ∀ c b, (step c b).data.length ≤ 1) (bs : List Buffer) (client : Client) (k : Nat)
    (hall : (runAll step client bs).data.length = bs.length) :
    (runAll step client (bs.take k)).data = (runAll step client bs).data.take k ∧
      (runAll step client (bs.take k)).data.length = (bs.take k).length := by
  induction bs generalizing client k with
  | nil => simp [runAll_nil]
  | cons b bs ih =>
    cases k with
    | zero => simp [runAll_nil]
    | succ k =>
      have hb := h1 client b
      cases ht : (step client b).thrown with
      | none =>
        rw [runAll_cons_none step client b bs ht] at hall ⊢
        have hrest := length_data_runAll step h1 bs (step client b).client
        simp only [List.length_append, List.length_cons] at hall
        have hb1 : (step client b).data.length = 1 := by omega
        have hr : (runAll step (step client b).client bs).data.length = bs.length := by omega
        obtain ⟨i1, i2⟩ := ih (step client b).client k hr
        rw [List.take_succ_cons, runAll_cons_none step client b _ ht]
        refine ⟨?_, ?_⟩
        · show (step client b).data ++ _ = _
          rw [i1, List.take_append_eq_append_take, hb1,
            List.take_of_length_le (by omega : (step client b).data.length ≤ k + 1)]
          simp
        · show ((step client b).data ++ _).length = _
          rw [List.length_append, i2, hb1, List.length_cons]
          omega
      | some e =>
        rw [runAll_cons_some step client b bs e ht] at hall ⊢
        simp only [List.length_cons] at hall
        have hbs : bs = [] := List.length_eq_zero.mp (by omega)
        subst hbs
        rw [List.take_succ_cons, List.take_nil, runAll_cons_some step client b _ e ht]
        simp only [List.length_cons, List.length_nil]
        refine ⟨?_, by omega⟩
        rw [List.take_of_length_le (by omega)]

/-- When every call produced its chunk and each such call adds one to a counter,
the counter ends at its initial value plus the number of calls. -/
theorem runAll_counter (step : Client → Buffer → Run) (counter : Client → Option Int)
    (h1 : ∀ c b, (step c b).data.length ≤ 1)
    (h2 : ∀ c b, (step c b).data ≠ [] → (step c b).thrown = none ∧
      ∃ n, counter c = some n ∧ counter (step c b).client = some (n + 1))
    (bs : List Buffer) (client : Client) (n : Int) (hn : counter client = some n)
    (hall : (runAll step client bs).data.length = bs.length) :
    (runAll step client bs).thrown = none ∧
      counter (runAll step client bs).client = some (n + bs.length) := by
  induction bs generalizing client n with
  | nil => simp [runAll_nil, hn]
  | cons b bs ih =>
    have hb := h1 client b
    have hd : (step client b).data ≠ [] := by
      intro e
      cases ht : (step client b).thrown with
      | none =>
        rw [runAll_cons_none step client b bs ht, e] at hall
        have := length_data_runAll step h1 bs (step client b).client
        simp only [List.nil_append, List.length_cons] at hall
        omega
      | some err =>
        rw [runAll_cons_some step client b bs err ht, e] at hall
        simp at hall
    obtain ⟨ht, m, hm, hm1⟩ := h2 client b hd
    rw [hn] at hm
    cases hm
    rw [runAll_cons_none step client b bs ht] at hall ⊢
    have hrest := length_data_runAll step h1 bs (step client b).client
    simp only [List.length_append, List.length_cons] at hall
    have hr : (runAll step (step client b).client bs).data.length = bs.length := by omega
    obtain ⟨j1, j2⟩ := ih (step client b).client (n + 1) hm1 hr
    refine ⟨j1, ?_⟩
    simp only [j2, List.length_cons, Nat.cast_add, Nat.cast_one]
    congr 1
    omega

/-- Matching pipelines stay matched: same key, same counter, same shift register. -/
theorem roundTrip_run (rt : Runtime) (hsha : ∀ m, (rt.sha256 m).length = 32)
    (hdef : ∀ x, x ≠ [] → ∃ z, rt.deflateRaw x = some z ∧ z ≠ [])
    (hinf : ∀ x z, rt.deflateRaw x = some z → rt.inflateRaw z = some x)
    (ps : List Buffer) (ce cd : Client) (h : CipherHandle) (c : Int)
    (hce : ce.cipher = some h) (hcd : cd.decipher = some h)
    (hsc : ce.sendCounter = some c) (hrc : cd.receiveCounter = some c)
    (hkey : ce.secretKeyBytes = cd.secretKeyBytes)
    (h0 : -(2 ^ 63) ≤ c) (h1 : c + ps.length ≤ 2 ^ 63) (hne : ∀ p ∈ ps, p ≠ []) :
    (encodeAll rt ce ps).thrown = none ∧
      (encodeAll rt ce ps).data.length = ps.length ∧
      (decodeAll rt cd (encodeAll rt ce ps).data).thrown = none ∧
      (decodeAll rt cd (encodeAll rt ce ps).data).data = ps := by
  induction ps generalizing ce cd h c with
  | nil => simp [encodeAll, decodeAll, runAll_nil]
  | cons p ps ih =>
    have hp : p ≠ [] := hne p (List.mem_cons_self _ _)
    have hlen : c + (ps.length : Int) + 1 ≤ 2 ^ 63 := by
      simpa [add_assoc] using h1
    obtain ⟨z, hz, hz0⟩ := hdef p hp
    obtain ⟨tag, htag⟩ : ∃ tag, computeCheckSum rt z c ce.secretKeyBytes = .ok tag := by
      obtain ⟨counter, -, ht⟩ := computeCheckSum_ok rt z ce.secretKeyBytes c h0 (by omega)
      exact ⟨_, ht⟩
    have hE := encode_eq rt ce p z _ c h hp hz hz0 hsc hce htag
    have hD := decode_eq rt hsha cd z _ p c h hz0 (hinf p z hz) hp hrc hcd (by rw [← hkey]; exact htag)
    have hEt : (encode rt ce p).thrown = none := by rw [hE]
    have hDt : (decode rt cd (cipherUpdate rt h (z ++ tag)).1).thrown = none := by
      rw [hD]
    obtain ⟨i1, i2, i3, i4⟩ := ih (encode rt ce p).client (decode rt cd (cipherUpdate rt h (z ++ tag)).1).client
      (cipherUpdate rt h (z ++ tag)).2 (c + 1)
      (by rw [hE]) (by rw [hD]) (by rw [hE]) (by rw [hD]) (by rw [hE, hD]; exact hkey)
      (by omega) (by omega) (fun q hq => hne q (List.mem_cons_of_mem _ hq))
    simp only [encodeAll, decodeAll] at i1 i2 i3 i4 ⊢
    rw [runAll_cons_none _ ce p ps hEt]
    have hdata : (encode rt ce p).data = [(cipherUpdate rt h (z ++ tag)).1] := by rw [hE]
    refine ⟨i1, ?_, ?_⟩
    · show ((encode rt ce p).data ++ _).length = _
      rw [List.length_append, i2, hdata, List.length_cons, List.length_cons, List.length_nil]
      omega
    · simp only [hdata, List.singleton_append]
      rw [runAll_cons_none _ cd _ _ hDt]
      refine ⟨i3, ?_⟩
      show (decode rt cd _).data ++ _ = _
      rw [i4, hD]
      rfl

theorem demoRuntime_sha256 (m : Buffer) : (demoRuntime.sha256 m).length = 32 := rfl

theorem demoRuntime_deflateRaw (x : Buffer) (_ : x ≠ []) :
    ∃ z, demoRuntime.deflateRaw x = some z ∧ z ≠ [] :=
  ⟨0 :: x, rfl, List.cons_ne_nil _ _⟩

theorem demoRuntime_inflateRaw (x z : Buffer) (h : demoRuntime.deflateRaw x = some z) :
    demoRuntime.inflateRaw z = some x := by
  simp only [demoRuntime, Option.some.injEq] at h
  subst h
  rfl

theorem createEncryptor_fresh (rt : Runtime) (key iv : Buffer) (hk : key.length = 32)
    (hiv : iv.length = 16) :
    createEncryptor rt (freshClient key) iv = .ok ⟨key, some 0, none, some ⟨key, iv⟩, none⟩ := by
  cases hn : rt.hasNativeCipher <;>
    simp [createEncryptor, createCipher, newHandle, freshClient, hn, hk, hiv, orZero]

theorem createDecryptor_fresh (rt : Runtime) (key iv : Buffer) (hk : key.length = 32)
    (hiv : iv.length = 16) :
    createDecryptor rt (freshClient key) iv = .ok ⟨key, none, some 0, none, some ⟨key, iv⟩⟩ := by
  cases hn : rt.hasNativeCipher <;>
    simp [createDecryptor, createDecipher, newHandle, freshClient, hn, hk, hiv, orZero]

/-! ## The claims -/

/-- C2, amended.  For every plaintext, every key and every counter with
`0 ≤ counter < 2^63`, SHA-256 digests being 32 bytes long, `computeCheckSum` returns
the first 8 bytes of SHA-256(LE64(counter) ‖ plaintext ‖ secretKey); the result is
exactly 8 bytes long and the call does not fail. -/
theorem computeCheckSum_spec (rt : Runtime) (p k : Buffer) (c : Int)
    (hsha : ∀ m, (rt.sha256 m).length = 32) (h0 : 0 ≤ c) (h1 : c < 2 ^ 63) :
    computeCheckSum rt p c k = .ok ((rt.sha256 (LE64 c.toNat ++ p ++ k)).take 8) ∧
      ((rt.sha256 (LE64 c.toNat ++ p ++ k)).take 8).length = 8 := by
  have hw := writeBigInt64LE_eq_LE64 c h0 h1
  constructor
  · simp only [computeCheckSum, hw, slice_zero_eight]
  · rw [List.length_take, hsha]; rfl

/-- Witness of C2: counter 258 with the toy runtime. -/
theorem computeCheckSum_spec_witness :
    computeCheckSum demoRuntime [1, 2] 258 demoKey
        = .ok ((demoRuntime.sha256 (LE64 258 ++ [1, 2] ++ demoKey)).take 8) ∧
      ((demoRuntime.sha256 (LE64 258 ++ [1, 2] ++ demoKey)).take 8).length = 8 :=
  computeCheckSum_spec demoRuntime [1, 2] demoKey 258 demoRuntime_sha256 (by decide) (by decide)

/-- Counterexample of C2: the counter `2^63` lies in the unsigned 64-bit range, and
`computeCheckSum` fails on it, whatever the runtime, plaintext and key. -/
theorem computeCheckSum_unsigned_counterexample :
    (0 : Int) ≤ 2 ^ 63 ∧ (2 : Int) ^ 63 < 2 ^ 64 ∧
      ∀ (rt : Runtime) (p k : Buffer), computeCheckSum rt p (2 ^ 63) k = .error .outOfRange :=
  ⟨by decide, by decide, fun rt p k => computeCheckSum_outOfRange rt p k _ (le_refl _)⟩

/-- C3, amended.  For every non-empty payload `P` that `deflateRaw` compresses to a
non-empty `Z`, and every encoder state with key `k` and send counter `c` in the signed
64-bit range, one `encode(P)` call hands `onEncryptedPacket` exactly
encrypt(Z ‖ computeCheckSum(Z, c, k)): the checksum is taken over the compressed bytes
with the counter held before the call, the 8-byte tag follows `Z`, encryption comes
last, and the counter becomes `c + 1`. -/
theorem encode_output (rt : Runtime) (client : Client) (payload z : Buffer) (c : Int)
    (h : CipherHandle) (hsha : ∀ m, (rt.sha256 m).length = 32)
    (hp : payload ≠ []) (hz : rt.deflateRaw payload = some z) (hz0 : z ≠ [])
    (hc : client.sendCounter = some c) (h0 : -(2 ^ 63) ≤ c) (h1 : c < 2 ^ 63)
    (hh : client.cipher = some h) :
    ∃ tag, computeCheckSum rt z c client.secretKeyBytes = .ok tag ∧ tag.length = 8 ∧
      encode rt client payload =
        ⟨{ client with sendCounter := some (c + 1),
                       cipher := some (cipherUpdate rt h (z ++ tag)).2 },
         [(cipherUpdate rt h (z ++ tag)).1], none⟩ := by
  obtain ⟨counter, -, ht⟩ := computeCheckSum_ok rt z client.secretKeyBytes c h0 h1
  exact ⟨_, ht, computeCheckSum_length rt hsha _ _ _ _ ht,
    encode_eq rt client payload z _ c h hp hz hz0 hc hh ht⟩

/-- Witness of C3: the payload `[5, 6]` on the toy encoder. -/
theorem encode_output_witness :
    ∃ tag, computeCheckSum demoRuntime [0, 5, 6] 0 demoEncoder.secretKeyBytes = .ok tag ∧
      tag.length = 8 ∧
      encode demoRuntime demoEncoder [5, 6] =
        ⟨{ demoEncoder with
            sendCounter := some (0 + 1),
            cipher := some (cipherUpdate demoRuntime ⟨demoKey, demoIv⟩ ([0, 5, 6] ++ tag)).2 },
         [(cipherUpdate demoRuntime ⟨demoKey, demoIv⟩ ([0, 5, 6] ++ tag)).1], none⟩ :=
  encode_output demoRuntime demoEncoder [5, 6] [0, 5, 6] 0 ⟨demoKey, demoIv⟩ demoRuntime_sha256
    (by decide) rfl (by decide) rfl (by decide) (by decide) rfl

/-- Counterexample of C3: for the zero-length payload nothing is handed to
`onEncryptedPacket`, whatever the runtime and the encoder state; and with the send
counter `2^63` the call throws the range error and hands nothing either. -/
theorem encode_output_counterexample :
    (∀ (rt : Runtime) (client : Client), (encode rt client []).data = []) ∧
    encode demoRuntime { demoEncoder with sendCounter := some (2 ^ 63) } [5, 6] =
      ⟨{ demoEncoder with sendCounter := some (2 ^ 63) }, [], some .outOfRange⟩ := by
  refine ⟨fun rt client => by rw [encode_nil], ?_⟩
  rfl

theorem verifyChecksum_eq (rt : Runtime) (client : Client) (chunk tag : Buffer) (r : Int)
    (hr : client.receiveCounter = some r)
    (ht : computeCheckSum rt (slice chunk 0 (some ((chunk.length : Int) - 8))) r
      client.secretKeyBytes = .ok tag) :
    verifyChecksum rt client chunk =
      if slice chunk ((chunk.length : Int) - 8) none = tag then
        ({ client with receiveCounter := some (r + 1) },
          .ok (slice chunk 0 (some ((chunk.length : Int) - 8))))
      else
        ({ client with receiveCounter := some (r + 1) },
          .error (.checksumMismatch (toHex (slice chunk ((chunk.length : Int) - 8) none))
            (toHex tag))) := by
  simp only [verifyChecksum, hr, ht]
  by_cases he : slice chunk ((chunk.length : Int) - 8) none = tag
  · rw [if_pos he, if_pos (by rw [he])]
  · rw [if_neg he, if_neg (fun h => he (toHex_inj _ _ h))]

/-- C4, amended.  For every decrypted packet `D` of at least 8 bytes, every key and every
receive counter `r` in the signed 64-bit range, SHA-256 digests being 32 bytes long:
`verifyChecksum` pushes the bytes before the last 8 if and only if the last 8 bytes equal
computeCheckSum(D[0 .. len-8], r, k) taken with the current receive counter; the pushed
bytes reach the inflator when `D` is longer than 8 bytes, and are discarded by the
stream when `D` has exactly 8 bytes; otherwise the step throws the checksum-mismatch
error and nothing is delivered. -/
theorem verifyChecksum_decides (rt : Runtime) (client : Client) (d : Buffer) (r : Int)
    (hsha : ∀ m, (rt.sha256 m).length = 32) (hd : 8 ≤ d.length)
    (hr : client.receiveCounter = some r) (h0 : -(2 ^ 63) ≤ r) (h1 : r < 2 ^ 63) :
    ∃ tag, computeCheckSum rt (d.take (d.length - 8)) r client.secretKeyBytes = .ok tag ∧
      tag.length = 8 ∧
      ((verifyChecksum rt client d).2 = .ok (d.take (d.length - 8))
        ↔ d.drop (d.length - 8) = tag) ∧
      (d.drop (d.length - 8) = tag → 8 < d.length →
        verifyChecksumWrite rt client d =
          inflatorWrite rt { client with receiveCounter := some (r + 1) }
            (d.take (d.length - 8))) ∧
      (d.drop (d.length - 8) = tag → d.length = 8 →
        verifyChecksumWrite rt client d =
          ⟨{ client with receiveCounter := some (r + 1) }, [], none⟩) ∧
      (d.drop (d.length - 8) ≠ tag →
        verifyChecksumWrite rt client d =
          ⟨{ client with receiveCounter := some (r + 1) }, [],
            some (.checksumMismatch (toHex (d.drop (d.length - 8))) (toHex tag))⟩) := by
  obtain ⟨tag, ht⟩ : ∃ tag,
      computeCheckSum rt (d.take (d.length - 8)) r client.secretKeyBytes = .ok tag := by
    obtain ⟨counter, -, ht⟩ := computeCheckSum_ok rt (d.take (d.length - 8))
      client.secretKeyBytes r h0 h1
    exact ⟨_, ht⟩
  have hp : slice d 0 (some ((d.length : Int) - 8)) = d.take (d.length - 8) := by
    rw [slice_packet, if_pos hd]
  have hc : slice d ((d.length : Int) - 8) none = d.drop (d.length - 8) := by
    rw [slice_checksum, if_pos hd]
  have hv := verifyChecksum_eq rt client d tag r hr (by rw [hp]; exact ht)
  rw [hp, hc] at hv
  refine ⟨tag, ht, computeCheckSum_length rt hsha _ _ _ _ ht, ?_, ?_, ?_, ?_⟩
  · by_cases he : d.drop (d.length - 8) = tag
    · rw [hv, if_pos he]; simp [he]
    · rw [hv, if_neg he]; simp [he]
  · intro he hlt
    have hne : d.take (d.length - 8) ≠ [] := by
      intro e
      have := congrArg List.length e
      rw [List.length_take] at this
      simp only [List.length_nil] at this
      omega
    simp only [verifyChecksumWrite, hv, if_pos he, readablePush_of_ne_nil _ hne]
  · intro he h8
    have hnil : d.take (d.length - 8) = [] := by rw [h8]; rfl
    simp only [verifyChecksumWrite, hv, if_pos he, hnil, readablePush, List.length_nil,
      lt_self_iff_false, if_false]
  · intro he
    simp only [verifyChecksumWrite, hv, if_neg he]

/-- Witness of C4: an 11-byte packet carrying the tag of the toy runtime. -/
theorem verifyChecksum_decides_witness :
    ∃ tag, computeCheckSum demoRuntime [0, 5, 6] 0 demoKey = .ok tag ∧
      tag.length = 8 ∧
      ((verifyChecksum demoRuntime demoDecoder [0, 5, 6, 7, 7, 7, 7, 7, 7, 7, 7]).2
          = .ok [0, 5, 6]
        ↔ [7, 7, 7, 7, 7, 7, 7, 7] = tag) ∧
      (([7, 7, 7, 7, 7, 7, 7, 7] : Buffer) = tag → 8 < 11 →
        verifyChecksumWrite demoRuntime demoDecoder [0, 5, 6, 7, 7, 7, 7, 7, 7, 7, 7] =
          inflatorWrite demoRuntime { demoDecoder with receiveCounter := some (0 + 1) }
            [0, 5, 6]) ∧
      (([7, 7, 7, 7, 7, 7, 7, 7] : Buffer) = tag → 11 = 8 →
        verifyChecksumWrite demoRuntime demoDecoder [0, 5, 6, 7, 7, 7, 7, 7, 7, 7, 7] =
          ⟨{ demoDecoder with receiveCounter := some (0 + 1) }, [], none⟩) ∧
      (([7, 7, 7, 7, 7, 7, 7, 7] : Buffer) ≠ tag →
        verifyChecksumWrite demoRuntime demoDecoder [0, 5, 6, 7, 7, 7, 7, 7, 7, 7, 7] =
          ⟨{ demoDecoder with receiveCounter := some (0 + 1) }, [],
            some (.checksumMismatch (toHex [7, 7, 7, 7, 7, 7, 7, 7]) (toHex tag))⟩) :=
  verifyChecksum_decides demoRuntime demoDecoder [0, 5, 6, 7, 7, 7, 7, 7, 7, 7, 7] 0
    demoRuntime_sha256 (by decide) rfl (by decide) (by decide)

/-- Counterexample of C4: with the receive counter `2^63` the verify step throws the
range error, not a checksum mismatch; and an 8-byte packet that is exactly the tag of
the empty sequence is accepted, yet nothing reaches the inflator, which would have
thrown on the zero-length input. -/
theorem verifyChecksum_counterexample :
    verifyChecksumWrite demoRuntime { demoDecoder with receiveCounter := some (2 ^ 63) }
        [0, 5, 6, 7, 7, 7, 7, 7, 7, 7, 7] =
      ⟨{ demoDecoder with receiveCounter := some (2 ^ 63) }, [], some .outOfRange⟩ ∧
    computeCheckSum demoRuntime [] 0 demoKey = .ok [7, 7, 7, 7, 7, 7, 7, 7] ∧
    verifyChecksumWrite demoRuntime demoDecoder [7, 7, 7, 7, 7, 7, 7, 7] =
      ⟨{ demoDecoder with receiveCounter := some 1 }, [], none⟩ ∧
    inflatorWrite demoRuntime { demoDecoder with receiveCounter := some 1 } [] =
      ⟨{ demoDecoder with receiveCounter := some 1 }, [], some .inflateFailed⟩ :=
  ⟨rfl, rfl, rfl, rfl⟩

/-- C7, amended.  For every 32-byte key and 16-byte iv, encoding a zero-length payload on
a fresh encoder produces no packet: `onEncryptedPacket` is not invoked, nothing is
thrown, and the send counter and the cipher state stay as created; and no decode call
ever hands a zero-length payload to `onDecryptedPacket`. -/
theorem empty_payload (rt : Runtime) (key iv : Buffer) (hk : key.length = 32)
    (hiv : iv.length = 16) :
    ∃ ce, createEncryptor rt (freshClient key) iv = .ok ce ∧ ce.sendCounter = some 0 ∧
      encode rt ce [] = ⟨ce, [], none⟩ ∧
      ∀ (client : Client) (wire : Buffer), [] ∉ (decode rt client wire).data :=
  ⟨_, createEncryptor_fresh rt key iv hk hiv, rfl, encode_nil rt _,
    fun client wire => not_nil_mem_decode rt client wire⟩

/-- Witness of C7: the toy key and iv. -/
theorem empty_payload_witness :
    ∃ ce, createEncryptor demoRuntime (freshClient demoKey) demoIv = .ok ce ∧
      ce.sendCounter = some 0 ∧ encode demoRuntime ce [] = ⟨ce, [], none⟩ ∧
      ∀ (client : Client) (wire : Buffer), [] ∉ (decode demoRuntime client wire).data :=
  empty_payload demoRuntime demoKey demoIv rfl rfl

/-- Counterexample of C7: on the fresh toy encoder, built from a 32-byte key and a
16-byte iv, encoding the zero-length payload invokes `onEncryptedPacket` zero times. -/
theorem empty_payload_counterexample :
    demoKey.length = 32 ∧ demoIv.length = 16 ∧
    createEncryptor demoRuntime (freshClient demoKey) demoIv = .ok demoEncoder ∧
    (encode demoRuntime demoEncoder []).data = [] ∧
    (encode demoRuntime demoEncoder []).data.length ≠ 1 :=
  ⟨rfl, rfl, rfl, rfl, by decide⟩

/-- C8, amended.  For every client whose send counter is unset or `0n`, the send counter is
0 right after `createEncryptor(client, iv)` returns; for every client whose receive
counter is unset or `0n`, the receive counter is 0 right after
`createDecryptor(client, iv)` returns. -/
theorem counters_start_at_zero (rt : Runtime) (sender receiver : Client) (iv iv2 : Buffer)
    (e d : Client) (he : createEncryptor rt sender iv = .ok e)
    (hd : createDecryptor rt receiver iv2 = .ok d)
    (hs : sender.sendCounter = none ∨ sender.sendCounter = some 0)
    (hr : receiver.receiveCounter = none ∨ receiver.receiveCounter = some 0) :
    e.sendCounter = some 0 ∧ d.receiveCounter = some 0 := by
  unfold createEncryptor at he
  unfold createDecryptor at hd
  split at he
  · cases he
  split at hd
  · cases hd
  simp only [Except.ok.injEq] at he hd
  subst he hd
  rcases hs with hs | hs <;> rcases hr with hr | hr <;> simp [hs, hr, orZero]

/-- Witness of C8: the fresh client with the toy key and iv. -/
theorem counters_start_at_zero_witness :
    demoEncoder.sendCounter = some 0 ∧ demoDecoder.receiveCounter = some 0 :=
  counters_start_at_zero demoRuntime (freshClient demoKey) (freshClient demoKey) demoIv demoIv
    demoEncoder demoDecoder rfl rfl (Or.inl rfl) (Or.inl rfl)

/-- Counterexample of C8: a client that already carries the counters `5n` and `9n` keeps
them through `createEncryptor` and `createDecryptor`. -/
theorem counters_start_counterexample :
    createEncryptor demoRuntime { freshClient demoKey with sendCounter := some 5 } demoIv =
      .ok { demoEncoder with sendCounter := some 5 } ∧
    createDecryptor demoRuntime { freshClient demoKey with receiveCounter := some 9 } demoIv =
      .ok { demoDecoder with receiveCounter := some 9 } :=
  ⟨rfl, rfl⟩

/-- C9.  On the connection state (secret key, send counter, receive counter, cipher state,
decipher state), every encode call leaves the receive counter, the decipher state and
the secret key unchanged, and every decode call, successful or failing, leaves the send
counter, the cipher state and the secret key unchanged. -/
theorem direction_independence (rt : Runtime) (client : Client) (blob : Buffer) :
    ((encode rt client blob).client.receiveCounter = client.receiveCounter ∧
      (encode rt client blob).client.decipher = client.decipher ∧
      (encode rt client blob).client.secretKeyBytes = client.secretKeyBytes) ∧
    ((decode rt client blob).client.sendCounter = client.sendCounter ∧
      (decode rt client blob).client.cipher = client.cipher ∧
      (decode rt client blob).client.secretKeyBytes = client.secretKeyBytes) :=
  ⟨⟨(encode_frame rt client blob).2.1, (encode_frame rt client blob).2.2,
      (encode_frame rt client blob).1⟩,
    ⟨(decode_frame rt client blob).2.1, (decode_frame rt client blob).2.2,
      (decode_frame rt client blob).1⟩⟩

/-- C10, amended.  For every decrypted chunk of fewer than 8 bytes that reaches the verify
step, every key and every receive counter `r` in the signed 64-bit range
`-2^63 ≤ r < 2^63`, SHA-256 digests being 32 bytes long: the received tag
`chunk.slice(n - 8)` has fewer than 8 bytes while the computed checksum has 8; the step
forwards nothing to the inflator, throws the checksum-mismatch error (no index or
range error), and has advanced the receive counter by 1. -/
theorem short_packet_rejected (rt : Runtime) (client : Client) (chunk : Buffer) (r : Int)
    (hsha : ∀ m, (rt.sha256 m).length = 32) (hn : chunk.length < 8)
    (hr : client.receiveCounter = some r) (h0 : -(2 ^ 63) ≤ r) (h1 : r < 2 ^ 63) :
    ∃ tag,
      computeCheckSum rt (slice chunk 0 (some ((chunk.length : Int) - 8))) r
        client.secretKeyBytes = .ok tag ∧
      tag.length = 8 ∧
      (slice chunk ((chunk.length : Int) - 8) none).length < 8 ∧
      verifyChecksum rt client chunk =
        ({ client with receiveCounter := some (r + 1) },
          .error (.checksumMismatch (toHex (slice chunk ((chunk.length : Int) - 8) none))
            (toHex tag))) ∧
      verifyChecksumWrite rt client chunk =
        ⟨{ client with receiveCounter := some (r + 1) }, [],
          some (.checksumMismatch (toHex (slice chunk ((chunk.length : Int) - 8) none))
            (toHex tag))⟩ := by
  obtain ⟨tag, ht⟩ : ∃ tag, computeCheckSum rt (slice chunk 0
      (some ((chunk.length : Int) - 8))) r client.secretKeyBytes = .ok tag := by
    obtain ⟨counter, -, ht⟩ := computeCheckSum_ok rt (slice chunk 0
      (some ((chunk.length : Int) - 8))) client.secretKeyBytes r h0 h1
    exact ⟨_, ht⟩
  have ht8 := computeCheckSum_length rt hsha _ _ _ _ ht
  have hlen : (slice chunk ((chunk.length : Int) - 8) none).length < 8 := by
    rw [slice_checksum, List.length_drop]
    omega
  have hne : slice chunk ((chunk.length : Int) - 8) none ≠ tag := by
    intro e
    rw [e] at hlen
    omega
  have hv := verifyChecksum_eq rt client chunk tag r hr ht
  rw [if_neg hne] at hv
  refine ⟨tag, ht, ht8, hlen, hv, ?_⟩
  simp only [verifyChecksumWrite, hv]

/-- Witness of C10: a 3-byte chunk on the toy decoder. -/
theorem short_packet_rejected_witness :
    ∃ tag,
      computeCheckSum demoRuntime (slice [1, 2, 3] 0 (some ((3 : Int) - 8))) 0 demoKey
        = .ok tag ∧
      tag.length = 8 ∧
      (slice [1, 2, 3] ((3 : Int) - 8) none).length < 8 ∧
      verifyChecksum demoRuntime demoDecoder [1, 2, 3] =
        ({ demoDecoder with receiveCounter := some (0 + 1) },
          .error (.checksumMismatch (toHex (slice [1, 2, 3] ((3 : Int) - 8) none))
            (toHex tag))) ∧
      verifyChecksumWrite demoRuntime demoDecoder [1, 2, 3] =
        ⟨{ demoDecoder with receiveCounter := some (0 + 1) }, [],
          some (.checksumMismatch (toHex (slice [1, 2, 3] ((3 : Int) - 8) none))
            (toHex tag))⟩ :=
  short_packet_rejected demoRuntime demoDecoder [1, 2, 3] 0 demoRuntime_sha256 (by decide)
    rfl (by decide) (by decide)

/-- Counterexample of C10: the receive counter `2^63` lies in the unsigned 64-bit range;
with it a 3-byte chunk makes the verify step throw the range error of
`writeBigInt64LE`, not a checksum mismatch, and the receive counter stays as it was,
whatever the runtime, the chunk and the rest of the client. -/
theorem short_packet_counterexample :
    (0 : Int) ≤ 2 ^ 63 ∧ (2 : Int) ^ 63 < 2 ^ 64 ∧
    verifyChecksum demoRuntime { demoDecoder with receiveCounter := some (2 ^ 63) } [1, 2, 3] =
      ({ demoDecoder with receiveCounter := some (2 ^ 63) }, .error .outOfRange) ∧
    verifyChecksumWrite demoRuntime { demoDecoder with receiveCounter := some (2 ^ 63) }
        [1, 2, 3] =
      ⟨{ demoDecoder with receiveCounter := some (2 ^ 63) }, [], some .outOfRange⟩ ∧
    ∀ (rt : Runtime) (client : Client) (chunk : Buffer),
      client.receiveCounter = some (2 ^ 63) →
        verifyChecksumWrite rt client chunk = ⟨client, [], some .outOfRange⟩ := by
  refine ⟨by decide, by decide, rfl, rfl, fun rt client chunk hr => ?_⟩
  simp only [verifyChecksumWrite, verifyChecksum, hr,
    computeCheckSum_outOfRange rt _ _ _ (le_refl _)]

theorem createEncryptor_sendCounter (rt : Runtime) (client e : Client) (iv : Buffer)
    (h : createEncryptor rt client iv = .ok e) :
    e.sendCounter = some (orZero client.sendCounter) := by
  unfold createEncryptor at h
  split at h
  · cases h
  · simp only [Except.ok.injEq] at h
    rw [← h]

theorem createDecryptor_receiveCounter (rt : Runtime) (client d : Client) (iv : Buffer)
    (h : createDecryptor rt client iv = .ok d) :
    d.receiveCounter = some (orZero client.receiveCounter) := by
  unfold createDecryptor at h
  split at h
  · cases h
  · simp only [Except.ok.injEq] at h
    rw [← h]

/-- C6.  For every list of `N` payloads, when the `N` encode calls on a fresh encoder each
produced their packet and the `N` decode calls of those packets, in order, on a fresh
matching decoder each delivered their payload, no call threw and
`sendCounter = receiveCounter = N`; and for every `k ≤ N` both counters are `k` once
the first `k` packets have gone through, so the packet of index `k` is tagged and
verified with the counter value `k`. -/
theorem counters_lockstep (rt : Runtime) (key iv : Buffer) (ce cd : Client)
    (ps : List Buffer) (hce : createEncryptor rt (freshClient key) iv = .ok ce)
    (hcd : createDecryptor rt (freshClient key) iv = .ok cd)
    (hE : (encodeAll rt ce ps).data.length = ps.length)
    (hD : (decodeAll rt cd (encodeAll rt ce ps).data).data.length = ps.length) :
    (encodeAll rt ce ps).thrown = none ∧
    (decodeAll rt cd (encodeAll rt ce ps).data).thrown = none ∧
    (encodeAll rt ce ps).client.sendCounter = some (ps.length : Int) ∧
    (decodeAll rt cd (encodeAll rt ce ps).data).client.receiveCounter
      = some (ps.length : Int) ∧
    ∀ k, k ≤ ps.length →
      (encodeAll rt ce (ps.take k)).client.sendCounter = some (k : Int) ∧
      (decodeAll rt cd ((encodeAll rt ce ps).data.take k)).client.receiveCounter
        = some (k : Int) := by
  have hs : ce.sendCounter = some 0 := createEncryptor_sendCounter rt _ ce iv hce
  have hr : cd.receiveCounter = some 0 := createDecryptor_receiveCounter rt _ cd iv hcd
  have hD2 : (decodeAll rt cd (encodeAll rt ce ps).data).data.length
      = (encodeAll rt ce ps).data.length := hD.trans hE.symm
  obtain ⟨e1, e2⟩ := runAll_counter (encode rt) (fun c => c.sendCounter) (length_data_encode rt)
    (encode_of_data rt) ps ce 0 hs hE
  obtain ⟨d1, d2⟩ := runAll_counter (decode rt) (fun c => c.receiveCounter)
    (length_data_decode rt) (decode_of_data rt) (encodeAll rt ce ps).data cd 0 hr hD2
  refine ⟨e1, d1, ?_, ?_, fun k hk => ⟨?_, ?_⟩⟩
  · simpa [encodeAll] using e2
  · simpa [decodeAll, hE] using d2
  · obtain ⟨-, t2⟩ := runAll_take (encode rt) (length_data_encode rt) ps ce k hE
    obtain ⟨-, c2⟩ := runAll_counter (encode rt) (fun c => c.sendCounter)
      (length_data_encode rt) (encode_of_data rt) (ps.take k) ce 0 hs t2
    simpa [encodeAll, List.length_take, Nat.min_eq_left hk] using c2
  · obtain ⟨-, t2⟩ := runAll_take (decode rt) (length_data_decode rt)
      (encodeAll rt ce ps).data cd k hD2
    obtain ⟨-, c2⟩ := runAll_counter (decode rt) (fun c => c.receiveCounter)
      (length_data_decode rt) (decode_of_data rt) ((encodeAll rt ce ps).data.take k) cd 0 hr t2
    have hk2 : k ≤ (encodeAll rt ce ps).data.length := by rw [hE]; exact hk
    simpa [decodeAll, List.length_take, Nat.min_eq_left hk2] using c2

/-- Witness of C6: two payloads through the toy pipelines. -/
theorem counters_lockstep_witness :
    (encodeAll demoRuntime demoEncoder [[5, 6], [9]]).thrown = none ∧
    (decodeAll demoRuntime demoDecoder
      (encodeAll demoRuntime demoEncoder [[5, 6], [9]]).data).thrown = none ∧
    (encodeAll demoRuntime demoEncoder [[5, 6], [9]]).client.sendCounter = some 2 ∧
    (decodeAll demoRuntime demoDecoder
      (encodeAll demoRuntime demoEncoder [[5, 6], [9]]).data).client.receiveCounter = some 2 ∧
    ∀ k, k ≤ 2 →
      (encodeAll demoRuntime demoEncoder
        (List.take k [[5, 6], [9]])).client.sendCounter = some (k : Int) ∧
      (decodeAll demoRuntime demoDecoder
        ((encodeAll demoRuntime demoEncoder [[5, 6], [9]]).data.take k)).client.receiveCounter
          = some (k : Int) :=
  counters_lockstep demoRuntime demoKey demoIv demoEncoder demoDecoder [[5, 6], [9]] rfl rfl
    (by decide) (by decide)

/-- C1, amended.  For every 32-byte key and 16-byte iv and every list of at most `2^63`
non-empty payloads, encoded in order on a fresh encoder and decoded in the same order
on a fresh decoder built on the same key and iv, no call throws, every payload yields
one packet, and the list delivered to `onDecryptedPacket` is the list of payloads.
Hypotheses on the primitives: SHA-256 digests are 32 bytes long, `deflateRaw` succeeds
with a non-empty output on a non-empty input, and `inflateRaw` undoes `deflateRaw`. -/
theorem round_trip (rt : Runtime) (key iv : Buffer) (ps : List Buffer)
    (hsha : ∀ m, (rt.sha256 m).length = 32)
    (hdef : ∀ x, x ≠ [] → ∃ z, rt.deflateRaw x = some z ∧ z ≠ [])
    (hinf : ∀ x z, rt.deflateRaw x = some z → rt.inflateRaw z = some x)
    (hk : key.length = 32) (hiv : iv.length = 16)
    (hne : ∀ p ∈ ps, p ≠ []) (hN : ps.length ≤ 2 ^ 63) :
    ∃ ce cd, createEncryptor rt (freshClient key) iv = .ok ce ∧
      createDecryptor rt (freshClient key) iv = .ok cd ∧
      (encodeAll rt ce ps).thrown = none ∧
      (encodeAll rt ce ps).data.length = ps.length ∧
      (decodeAll rt cd (encodeAll rt ce ps).data).thrown = none ∧
      (decodeAll rt cd (encodeAll rt ce ps).data).data = ps := by
  refine ⟨_, _, createEncryptor_fresh rt key iv hk hiv, createDecryptor_fresh rt key iv hk hiv,
    ?_⟩
  have hN2 : (0 : Int) + (ps.length : Int) ≤ 2 ^ 63 := by
    have : ((ps.length : Nat) : Int) ≤ ((2 ^ 63 : Nat) : Int) := Int.ofNat_le.mpr hN
    simpa using this
  exact roundTrip_run rt hsha hdef hinf ps _ _ ⟨key, iv⟩ 0 rfl rfl rfl rfl rfl (by decide)
    hN2 hne

/-- Witness of C1: two payloads through the toy pipelines. -/
theorem round_trip_witness :
    ∃ ce cd, createEncryptor demoRuntime (freshClient demoKey) demoIv = .ok ce ∧
      createDecryptor demoRuntime (freshClient demoKey) demoIv = .ok cd ∧
      (encodeAll demoRuntime ce [[5, 6], [9]]).thrown = none ∧
      (encodeAll demoRuntime ce [[5, 6], [9]]).data.length = 2 ∧
      (decodeAll demoRuntime cd (encodeAll demoRuntime ce [[5, 6], [9]]).data).thrown = none ∧
      (decodeAll demoRuntime cd (encodeAll demoRuntime ce [[5, 6], [9]]).data).data
        = [[5, 6], [9]] :=
  round_trip demoRuntime demoKey demoIv [[5, 6], [9]] demoRuntime_sha256 demoRuntime_deflateRaw
    demoRuntime_inflateRaw rfl rfl (by decide) (by decide)

/-- Counterexample of C1: `inflateRaw` undoes `deflateRaw` in the toy runtime and the
decipher undoes the cipher in every runtime, yet the zero-length payload, encoded on
the fresh encoder, yields no packet, so that nothing is delivered by the matching
fresh decoder: the delivered list is empty and not the list holding that payload. -/
theorem round_trip_counterexample :
    (∀ x z, demoRuntime.deflateRaw x = some z → demoRuntime.inflateRaw z = some x) ∧
    (∀ (rt : Runtime) (h : CipherHandle) (plain : Buffer),
      (decipherUpdate rt h (cipherUpdate rt h plain).1).1 = plain) ∧
    createEncryptor demoRuntime (freshClient demoKey) demoIv = .ok demoEncoder ∧
    createDecryptor demoRuntime (freshClient demoKey) demoIv = .ok demoDecoder ∧
    (encodeAll demoRuntime demoEncoder [[]]).data = [] ∧
    (decodeAll demoRuntime demoDecoder (encodeAll demoRuntime demoEncoder [[]]).data).data
      = [] ∧
    (decodeAll demoRuntime demoDecoder (encodeAll demoRuntime demoEncoder [[]]).data).data
      ≠ [[]] :=
  ⟨demoRuntime_inflateRaw, fun rt h plain => by rw [decipherUpdate_cipherUpdate], rfl, rfl, rfl,
    rfl, by decide⟩

theorem decode_decipher (rt : Runtime) (client : Client) (blob : Buffer) (h : CipherHandle)
    (hh : client.decipher = some h) :
    ∃ h2, (decode rt client blob).client.decipher = some h2 := by
  unfold decode verifyChecksumWrite inflatorWrite
  rw [hh]
  try dsimp only
  cases readablePush (decipherUpdate rt h blob).1 with
  | none => exact ⟨_, rfl⟩
  | some chunk =>
  try dsimp only
  rcases hv : verifyChecksum rt { client with decipher := some (decipherUpdate rt h blob).2 }
    chunk with ⟨c2, r⟩
  have hf := (verifyChecksum_frame rt _ c2 chunk r hv).2.2.2
  cases r with
  | error e => exact ⟨_, hf⟩
  | ok packet =>
  try dsimp only
  cases readablePush packet with
  | none => exact ⟨_, hf⟩
  | some compressed =>
  try dsimp only
  cases rt.inflateRaw compressed with
  | none => exact ⟨_, hf⟩
  | some buf =>
  try dsimp only
  cases readablePush buf with
  | none => exact ⟨_, hf⟩
  | some payload =>
  exact ⟨_, hf⟩

theorem decodeAll_decipher (rt : Runtime) (bs : List Buffer) (client : Client)
    (h : CipherHandle) (hh : client.decipher = some h) :
    ∃ h2, (decodeAll rt client bs).client.decipher = some h2 := by
  unfold decodeAll
  induction bs generalizing client h with
  | nil => exact ⟨h, hh⟩
  | cons b bs ih =>
    obtain ⟨h1, hh1⟩ := decode_decipher rt client b h hh
    cases ht : (decode rt client b).thrown with
    | none =>
      rw [runAll_cons_none _ client b bs ht]
      exact ih _ h1 hh1
    | some e =>
      rw [runAll_cons_some _ client b bs e ht]
      exact ⟨h1, hh1⟩

/-- A call that follows calls none of which threw is served on the state they left. -/
theorem runAll_append_singleton (step : Client → Buffer → Run) (bs : List Buffer)
    (client : Client) (b : Buffer) (hlive : (runAll step client bs).thrown = none) :
    runAll step client (bs ++ [b]) =
      ⟨(step (runAll step client bs).client b).client,
       (runAll step client bs).data ++ (step (runAll step client bs).client b).data,
       (step (runAll step client bs).client b).thrown⟩ := by
  induction bs generalizing client with
  | nil =>
    cases ht : (step client b).thrown with
    | none => simp [runAll, ht]
    | some e => simp [runAll, ht]
  | cons a bs ih =>
    cases ht : (step client a).thrown with
    | none =>
      rw [runAll_cons_none step client a bs ht] at hlive ⊢
      rw [List.cons_append, runAll_cons_none step client a _ ht, ih _ hlive]
      simp
    | some e =>
      rw [runAll_cons_some step client a bs e ht] at hlive
      cases hlive

theorem createDecryptor_decipher (rt : Runtime) (client d : Client) (iv : Buffer)
    (h : createDecryptor rt client iv = .ok d) : ∃ h2, d.decipher = some h2 := by
  unfold createDecryptor at h
  split at h
  · cases h
  · simp only [Except.ok.injEq] at h
    rw [← h]
    exact ⟨_, rfl⟩

/-- C5, amended.  The receive counter advances on every call that is served: for every
decoder from its creation on, after earlier decode calls none of which threw, a decode
call on non-empty wire bytes, with the receive counter `r` in the signed 64-bit range,
leaves the receive counter at `r + 1`, whether or not checksum verification and
inflation succeed in that call. -/
theorem receiveCounter_advances (rt : Runtime) (initial decoder : Client) (iv : Buffer)
    (earlier : List Buffer) (wire : Buffer) (r : Int)
    (hnew : createDecryptor rt initial iv = .ok decoder)
    (hlive : (decodeAll rt decoder earlier).thrown = none)
    (hr : (decodeAll rt decoder earlier).client.receiveCounter = some r)
    (h0 : -(2 ^ 63) ≤ r) (h1 : r < 2 ^ 63) (hw : wire ≠ []) :
    (decodeAll rt decoder (earlier ++ [wire])).client.receiveCounter = some (r + 1) := by
  obtain ⟨h, hh⟩ := createDecryptor_decipher rt initial decoder iv hnew
  obtain ⟨h2, hh2⟩ := decodeAll_decipher rt earlier decoder h hh
  have happ := runAll_append_singleton (decode rt) earlier decoder wire hlive
  simp only [decodeAll] at hlive hr hh2 ⊢
  rw [happ]
  exact decode_counter rt _ wire h2 r hh2 hr h0 h1 hw

/-- Witness of C5: on the toy decoder, the packet of the payload `[5, 6]` is decoded
without error, then three wire bytes fail verification and the counter goes from 1
to 2. -/
theorem receiveCounter_advances_witness :
    (decodeAll demoRuntime demoDecoder [[2, 7, 4, 5, 5, 5, 5, 5, 5, 5, 5]]).data = [[5, 6]] ∧
    (decodeAll demoRuntime demoDecoder [[2, 7, 4, 5, 5, 5, 5, 5, 5, 5, 5]]).thrown = none ∧
    (decodeAll demoRuntime demoDecoder
      ([[2, 7, 4, 5, 5, 5, 5, 5, 5, 5, 5]] ++ [[1, 2, 3]])).client.receiveCounter
        = some (1 + 1) ∧
    (decodeAll demoRuntime demoDecoder
      ([[2, 7, 4, 5, 5, 5, 5, 5, 5, 5, 5]] ++ [[1, 2, 3]])).thrown ≠ none :=
  ⟨by decide, by decide,
    receiveCounter_advances demoRuntime (freshClient demoKey) demoDecoder demoIv
      [[2, 7, 4, 5, 5, 5, 5, 5, 5, 5, 5]] [1, 2, 3] 1 rfl (by decide) (by decide) (by decide)
      (by decide) (by decide),
    by decide⟩

/-- Counterexample of C5: a decode call on zero wire bytes leaves the receive counter
as it was, whatever the runtime and the decoder state; with the receive counter `2^63`
a call on non-empty wire bytes throws before the counter is advanced; and once the
three wire bytes `[1, 2, 3]` have made `verifyChecksum` throw, a further decode call is
not served: the counter is 1 after the first call and still 1 after the second. -/
theorem receiveCounter_counterexample :
    (∀ (rt : Runtime) (client : Client),
      (decode rt client []).client.receiveCounter = client.receiveCounter) ∧
    (decode demoRuntime demoDecoder []).client.receiveCounter = some 0 ∧
    (decode demoRuntime { demoDecoder with receiveCounter := some (2 ^ 63) }
      [1, 2, 3]).client.receiveCounter = some (2 ^ 63) ∧
    (decodeAll demoRuntime demoDecoder [[1, 2, 3]]).client.receiveCounter = some 1 ∧
    (decodeAll demoRuntime demoDecoder [[1, 2, 3], [4, 5, 6]]).client.receiveCounter
      = some 1 := by
  refine ⟨fun rt client => ?_, rfl, rfl, rfl, rfl⟩
  unfold decode
  cases client.decipher <;> rfl

end Encryption
